/-
Verification of the Nippon finance-news dashboard (src/nippon_news.py)
against its natural-language specification.

Shallow embedding notes:
* `feedparser.parse` results are modelled by a parameter
  `feeds : String → Option (List Entry)`: `feeds url = none` models the
  fetch/parse for that URL raising an exception, `some es` models a
  successfully parsed feed whose `entries` list is `es`.
* The FinBERT classifier is modelled by a parameter
  `finbert : String → String` mapping the input text to the sentiment label
  (`pipeline(...)(text)[0]["label"]`); the model itself is an external
  black box.
* `st.session_state.all_articles` is passed around explicitly as
  `stored : List Record`.
* Python strings are sequences of characters; the slice `title[:512]` is
  embedded as `pyTruncate`, taking the first 512 characters.
-/
import Mathlib

set_option linter.unusedVariables false

/-- A feed entry as consumed by the script: feedparser entries expose
`title`, `link`, and optionally a `source` mapping (modelled as an
association list of string keys to string values; `none` models an entry
object without a `source` attribute). -/
structure Entry where
  title : String
  link : String
  source : Option (List (String × String))
deriving DecidableEq

/-- One row of the processed table, with exactly the four columns built by
`process_articles` (line 77-82 of nippon_news.py). -/
structure Record where
  Title : String
  Source : String
  Sentiment : String
  Link : String
deriving DecidableEq

/-- `SEARCH_TERMS` (nippon_news.py lines 17-21). -/
def SEARCH_TERMS : List String :=
  ["NSE", "BSE", "Sensex", "Nifty", "stock market", "IPO", "RBI",
   "banking", "earnings", "quarterly results", "dividend", "merger",
   "acquisition", "sales", "revenue", "inflation", "rate"]

/-- `ARTICLES_PER_REFRESH` (line 22). -/
def ARTICLES_PER_REFRESH : Nat := 10

/-- The f-string URL template of line 48. -/
def searchURL (term : String) : String :=
  "https://news.google.com/rss/search?q=" ++ term ++ "+when:1d&hl=en-IN&gl=IN&ceid=IN:en"

/-- Python character slicing `s[:n]` (first `n` characters). -/
def pyTruncate (s : String) (n : Nat) : String :=
  ⟨s.data.take n⟩

/-- The inner `for entry in feed.entries` loop of `fetch_news`
(lines 51-57): per entry, append it and record its title unless the title
was already seen, then break once `len(all_articles) >= num_articles`.
Returns the updated `(all_articles, seen_titles)` pair. -/
def entryLoop (num : Nat) : List Entry → List Entry → List String → List Entry × List String
  | [], acc, seen => (acc, seen)
  | e :: es, acc, seen =>
    let p := if e.title ∈ seen then (acc, seen) else (acc ++ [e], seen ++ [e.title])
    if num ≤ p.1.length then p
    else entryLoop num es p.1 p.2

/-- Result of the outer fetch loop: the collected entries, the final
`seen_titles` set, and the list of terms for which a feed GET/parse was
issued (in order). -/
structure FetchResult where
  articles : List Entry
  seen : List String
  fetched : List String
deriving DecidableEq

/-- The outer `for term in SEARCH_TERMS` loop of `fetch_news`
(lines 46-62): per term, fetch and parse the feed inside a
`try`/`except Exception: continue` (an exception, modelled by
`feeds (searchURL term) = none`, contributes nothing and moves on to the
next term), run the entry loop, then break once
`len(all_articles) >= num_articles`. Each iterated term is logged in
`fetched`. -/
def fetchLoop (num : Nat) (feeds : String → Option (List Entry)) :
    List String → List Entry → List String → FetchResult
  | [], acc, seen => ⟨acc, seen, []⟩
  | term :: rest, acc, seen =>
    match feeds (searchURL term) with
    | none =>
        let r := fetchLoop num feeds rest acc seen
        ⟨r.articles, r.seen, term :: r.fetched⟩
    | some entries =>
        let p := entryLoop num entries acc seen
        if num ≤ p.1.length then ⟨p.1, p.2, [term]⟩
        else
          let r := fetchLoop num feeds rest p.1 p.2
          ⟨r.articles, r.seen, term :: r.fetched⟩

/-- `fetch_news(num_articles)` (lines 42-64): `seen_titles` is initialised
from the titles already stored in `st.session_state.all_articles`, the
fetch loop runs over `SEARCH_TERMS`, and the collected list is finally
truncated to `num_articles` by the slice `all_articles[:num_articles]`. -/
def fetch_news (feeds : String → Option (List Entry)) (stored : List Record)
    (num_articles : Nat := 10) : List Entry :=
  let seen_titles := stored.map Record.Title
  (fetchLoop num_articles feeds SEARCH_TERMS [] seen_titles).articles.take num_articles

/-- The terms for which a run of `fetch_news` issues a feed GET/parse. -/
def fetchNewsTerms (feeds : String → Option (List Entry)) (stored : List Record)
    (num_articles : Nat := 10) : List String :=
  (fetchLoop num_articles feeds SEARCH_TERMS [] (stored.map Record.Title)).fetched

/-- The body of the `for art in articles` loop of `process_articles`
(lines 69-82): the record built for one article, paired with the text
passed to the classifier (`title[:512]`, line 75). The `Source` column
embeds line 71: `getattr(art, "source", \x7b\x7d).get("title", "Unknown")
if hasattr(art, "source") else "Unknown"`. -/
def processOne (finbert : String → String) (art : Entry) : Record × String :=
  let title := art.title
  let source := match art.source with
    | some m => (m.lookup "title").getD "Unknown"
    | none => "Unknown"
  let url := art.link
  let input := pyTruncate title 512
  let sentiment := finbert input
  ({ Title := title, Source := source, Sentiment := sentiment, Link := url }, input)

/-- `process_articles(articles)` (lines 66-84), instrumented: returns the
`records` list together with the list of texts passed to the classifier,
one call per loop iteration, in order. -/
def process_articles (finbert : String → String) : List Entry → List Record × List String
  | [] => ([], [])
  | art :: rest =>
    let p := processOne finbert art
    let r := process_articles finbert rest
    (p.1 :: r.1, p.2 :: r.2)

/-- The refresh-button handler (lines 95-104): fetch up to
`ARTICLES_PER_REFRESH` new articles; if any were found, process them and
prepend the processed records to `st.session_state.all_articles`
(`processed + st.session_state.all_articles`, line 101); otherwise the
stored list is left unchanged. -/
def refreshState (finbert : String → String) (feeds : String → Option (List Entry))
    (stored : List Record) : List Record :=
  let new_articles := fetch_news feeds stored ARTICLES_PER_REFRESH
  if new_articles.isEmpty then stored
  else (process_articles finbert new_articles).1 ++ stored

/-- The initial-load block (lines 106-111): when the stored list is empty,
fetch and process up to `ARTICLES_PER_REFRESH` articles and store them
(no assignment happens when the fetch comes back empty). -/
def initialLoad (finbert : String → String) (feeds : String → Option (List Entry))
    (stored : List Record) : List Record :=
  if stored.isEmpty then
    let initial_articles := fetch_news feeds stored ARTICLES_PER_REFRESH
    if initial_articles.isEmpty then stored
    else (process_articles finbert initial_articles).1
  else stored

/-- Widget kinds of the UI framework relevant to the display block.
`filterControl` and `downloadButton` are the framework's selection-filter
and file-download widgets (`st.selectbox`/`st.radio`, `st.download_button`);
they are part of the widget vocabulary whether or not the script emits
them. -/
inductive Widget where
  | metric (label : String) (value : Nat)
  | barChart (data : List (String × Nat))
  | subheader (text : String)
  | articleRow (title link source sentiment : String)
  | info (text : String)
  | filterControl (options : List String)
  | downloadButton (filename : String)
deriving DecidableEq

/-- Whether a widget is a selection-filter control. -/
def isFilterWidget : Widget → Bool
  | Widget.filterControl _ => true
  | _ => false

/-- Whether a widget is a file-download (e.g. CSV export) button. -/
def isDownloadWidget : Widget → Bool
  | Widget.downloadButton _ => true
  | _ => false

/-- `len(df[df['Sentiment'] == s])` (lines 124, 128, 132). -/
def countSentiment (df : List Record) (s : String) : Nat :=
  (df.filter (fun r => r.Sentiment = s)).length

/-- `df['Sentiment'].value_counts()` (line 139): the tabulation of each
distinct sentiment value with its frequency. (pandas additionally orders
the rows by descending count; the bar-chart row order is purely
presentational and not relied on by any claim, so it is abstracted.) -/
def sentimentCounts (df : List Record) : List (String × Nat) :=
  let vals := df.map Record.Sentiment
  vals.dedup.map (fun s => (s, vals.count s))

/-- The display block (lines 113-181): when articles are stored, render
the four count metrics, the sentiment-distribution bar chart, and one row
per article (title/link, source caption, sentiment badge, lines 162-178);
otherwise only the "Click Refresh" info message (line 181). Static
markdown separators and titles are not part of the widget list. -/
def renderContent (all_articles : List Record) : List Widget :=
  if all_articles.isEmpty then
    [Widget.info "Click Refresh News to load articles."]
  else
    let df := all_articles
    [Widget.metric "Total Articles" df.length,
     Widget.metric "Positive" (countSentiment df "positive"),
     Widget.metric "Neutral" (countSentiment df "neutral"),
     Widget.metric "Negative" (countSentiment df "negative"),
     Widget.subheader "Sentiment Distribution",
     Widget.barChart (sentimentCounts df),
     Widget.subheader "Latest News Articles"]
    ++ df.map (fun r => Widget.articleRow r.Title r.Link r.Source r.Sentiment)

/-! ### Concrete example inputs (used to instantiate theorems) -/

/-- A feed entry with a `source` mapping carrying a `title` key. -/
def entryA : Entry := ⟨"title A", "link A", some [("title", "Source A")]⟩

/-- A feed entry without a `source` attribute. -/
def entryNoSource : Entry := ⟨"title B", "link B", none⟩

/-- A feed entry whose `source` mapping has no `title` key. -/
def entryNoTitleKey : Entry := ⟨"title C", "link C", some [("href", "x")]⟩

/-- A feed environment where every query parses to the same twelve
distinctly-titled entries. -/
def manyFeeds : String → Option (List Entry) :=
  fun _ => some ((List.range 12).map (fun i => ⟨s!"t{i}", s!"l{i}", none⟩))

/-- A feed environment where every query parses to an empty feed. -/
def emptyFeeds : String → Option (List Entry) :=
  fun _ => some []

/-- A feed environment where the query for the term `"BSE"` raises and
every other query parses to an empty feed. -/
def failFeeds : String → Option (List Entry) :=
  fun u => if u = searchURL "BSE" then none else some []

/-- A classifier that labels everything `"neutral"`. -/
def constFinbert : String → String := fun _ => "neutral"

/-- A concrete processed record. -/
def recA : Record := ⟨"T", "S", "positive", "L"⟩

/-- A one-row stored article table. -/
def df0 : List Record := [recA]

/-! ### Invariants of the inner entry loop -/

/-- The entry loop only appends: the incoming accumulator is a prefix of
the outgoing one. -/
theorem entryLoop_acc_front (num : Nat) (es : List Entry) (acc : List Entry)
    (seen : List String) : acc <+: (entryLoop num es acc seen).1 := by
  induction es generalizing acc seen with
  | nil => simp [entryLoop]
  | cons e es ih =>
    by_cases h : e.title ∈ seen
    · simp only [entryLoop, h, if_true]
      split
      · exact ⟨[], by simp⟩
      · exact ih acc seen
    · simp only [entryLoop, h, if_false]
      split
      · exact ⟨[e], rfl⟩
      · obtain ⟨t, ht⟩ := ih (acc ++ [e]) (seen ++ [e.title])
        exact ⟨[e] ++ t, by rw [← List.append_assoc]; exact ht⟩

/-- The entry loop only adds titles to `seen_titles`. -/
theorem entryLoop_seen_subset (num : Nat) (es : List Entry) (acc : List Entry)
    (seen : List String) : seen ⊆ (entryLoop num es acc seen).2 := by
  induction es generalizing acc seen with
  | nil => simp [entryLoop]
  | cons e es ih =>
    by_cases h : e.title ∈ seen
    · simp only [entryLoop, h, if_true]
      split
      · exact fun x hx => hx
      · exact ih acc seen
    · simp only [entryLoop, h, if_false]
      split
      · exact List.subset_append_left _ _
      · exact (List.subset_append_left seen [e.title]).trans (ih _ _)

/-- Dedup invariant of the entry loop: if the accumulated titles are
pairwise distinct and all recorded in `seen_titles`, the same holds after
the loop. -/
theorem entryLoop_nodup (num : Nat) (es : List Entry) (acc : List Entry)
    (seen : List String) (hnd : (acc.map Entry.title).Nodup)
    (hmem : ∀ e ∈ acc, e.title ∈ seen) :
    ((entryLoop num es acc seen).1.map Entry.title).Nodup ∧
      ∀ e ∈ (entryLoop num es acc seen).1, e.title ∈ (entryLoop num es acc seen).2 := by
  induction es generalizing acc seen with
  | nil => simpa [entryLoop] using ⟨hnd, hmem⟩
  | cons e es ih =>
    by_cases h : e.title ∈ seen
    · simp only [entryLoop, h, if_true]
      split
      · exact ⟨hnd, hmem⟩
      · exact ih acc seen hnd hmem
    · have hnd' : ((acc ++ [e]).map Entry.title).Nodup := by
        rw [List.map_append, List.nodup_append]
        refine ⟨hnd, List.nodup_singleton _, ?_⟩
        intro t ht ht'
        simp only [List.map_cons, List.map_nil, List.mem_singleton] at ht'
        subst ht'
        obtain ⟨x, hx, hxt⟩ := List.mem_map.mp ht
        exact h (hxt ▸ hmem x hx)
      have hmem' : ∀ x ∈ acc ++ [e], x.title ∈ seen ++ [e.title] := by
        intro x hx
        rcases List.mem_append.mp hx with hx | hx
        · exact List.mem_append_left _ (hmem x hx)
        · simp only [List.mem_singleton] at hx
          subst hx
          exact List.mem_append_right _ (by simp)
      simp only [entryLoop, h, if_false]
      split
      · exact ⟨hnd', hmem'⟩
      · exact ih _ _ hnd' hmem'

/-- Every entry the loop returns was either already accumulated or had a
title not yet in the incoming `seen_titles` set. -/
theorem entryLoop_new (num : Nat) (es : List Entry) (acc : List Entry)
    (seen : List String) :
    ∀ x ∈ (entryLoop num es acc seen).1, x ∈ acc ∨ x.title ∉ seen := by
  induction es generalizing acc seen with
  | nil =>
    simp only [entryLoop]
    exact fun x hx => Or.inl hx
  | cons e es ih =>
    by_cases h : e.title ∈ seen
    · simp only [entryLoop, h, if_true]
      split
      · exact fun x hx => Or.inl hx
      · exact ih acc seen
    · simp only [entryLoop, h, if_false]
      split
      · intro x hx
        rcases List.mem_append.mp hx with hx | hx
        · exact Or.inl hx
        · simp only [List.mem_singleton] at hx
          exact Or.inr (hx ▸ h)
      · intro x hx
        rcases ih _ _ x hx with hx' | hx'
        · rcases List.mem_append.mp hx' with hx'' | hx''
          · exact Or.inl hx''
          · simp only [List.mem_singleton] at hx''
            exact Or.inr (hx'' ▸ h)
        · exact Or.inr fun hs => hx' (List.mem_append_left _ hs)

/-! ### Invariants of the outer fetch loop -/

/-- The fetch loop only appends to the accumulated article list. -/
theorem fetchLoop_acc_front (num : Nat) (feeds : String → Option (List Entry))
    (terms : List String) (acc : List Entry) (seen : List String) :
    acc <+: (fetchLoop num feeds terms acc seen).articles := by
  induction terms generalizing acc seen with
  | nil => simp [fetchLoop]
  | cons term rest ih =>
    cases hf : feeds (searchURL term) with
    | none =>
      simp only [fetchLoop, hf]
      exact ih acc seen
    | some entries =>
      simp only [fetchLoop, hf]
      by_cases hcap : num ≤ (entryLoop num entries acc seen).1.length
      · rw [if_pos hcap]
        exact entryLoop_acc_front num entries acc seen
      · rw [if_neg hcap]
        exact (entryLoop_acc_front num entries acc seen).trans (ih _ _)

/-- The fetch loop only adds titles to `seen_titles`. -/
theorem fetchLoop_seen_subset (num : Nat) (feeds : String → Option (List Entry))
    (terms : List String) (acc : List Entry) (seen : List String) :
    seen ⊆ (fetchLoop num feeds terms acc seen).seen := by
  induction terms generalizing acc seen with
  | nil => simp [fetchLoop]
  | cons term rest ih =>
    cases hf : feeds (searchURL term) with
    | none =>
      simp only [fetchLoop, hf]
      exact ih acc seen
    | some entries =>
      simp only [fetchLoop, hf]
      by_cases hcap : num ≤ (entryLoop num entries acc seen).1.length
      · rw [if_pos hcap]
        exact entryLoop_seen_subset num entries acc seen
      · rw [if_neg hcap]
        exact fun x hx => ih _ _ (entryLoop_seen_subset num entries acc seen hx)

/-- Dedup invariant of the fetch loop. -/
theorem fetchLoop_nodup (num : Nat) (feeds : String → Option (List Entry))
    (terms : List String) (acc : List Entry) (seen : List String)
    (hnd : (acc.map Entry.title).Nodup) (hmem : ∀ e ∈ acc, e.title ∈ seen) :
    ((fetchLoop num feeds terms acc seen).articles.map Entry.title).Nodup ∧
      ∀ e ∈ (fetchLoop num feeds terms acc seen).articles,
        e.title ∈ (fetchLoop num feeds terms acc seen).seen := by
  induction terms generalizing acc seen with
  | nil => exact ⟨hnd, hmem⟩
  | cons term rest ih =>
    cases hf : feeds (searchURL term) with
    | none =>
      simp only [fetchLoop, hf]
      exact ih acc seen hnd hmem
    | some entries =>
      simp only [fetchLoop, hf]
      by_cases hcap : num ≤ (entryLoop num entries acc seen).1.length
      · rw [if_pos hcap]
        exact entryLoop_nodup num entries acc seen hnd hmem
      · rw [if_neg hcap]
        exact ih _ _ (entryLoop_nodup num entries acc seen hnd hmem).1
          (entryLoop_nodup num entries acc seen hnd hmem).2

/-- Every article the fetch loop returns was already accumulated or has a
title outside the incoming `seen_titles` set. -/
theorem fetchLoop_new (num : Nat) (feeds : String → Option (List Entry))
    (terms : List String) (acc : List Entry) (seen : List String) :
    ∀ x ∈ (fetchLoop num feeds terms acc seen).articles, x ∈ acc ∨ x.title ∉ seen := by
  induction terms generalizing acc seen with
  | nil => exact fun x hx => Or.inl hx
  | cons term rest ih =>
    cases hf : feeds (searchURL term) with
    | none =>
      simp only [fetchLoop, hf]
      exact ih acc seen
    | some entries =>
      simp only [fetchLoop, hf]
      by_cases hcap : num ≤ (entryLoop num entries acc seen).1.length
      · rw [if_pos hcap]
        exact entryLoop_new num entries acc seen
      · rw [if_neg hcap]
        intro x hx
        rcases ih _ _ x hx with h1 | h1
        · exact entryLoop_new num entries acc seen x h1
        · exact Or.inr fun hs => h1 (entryLoop_seen_subset num entries acc seen hs)

/-- The terms the fetch loop actually iterates form an initial segment of
the given term list (the loop walks the list in order and may only stop
early). -/
theorem fetchLoop_fetched_front (num : Nat) (feeds : String → Option (List Entry))
    (terms : List String) (acc : List Entry) (seen : List String) :
    (fetchLoop num feeds terms acc seen).fetched <+: terms := by
  induction terms generalizing acc seen with
  | nil => simp [fetchLoop]
  | cons term rest ih =>
    cases hf : feeds (searchURL term) with
    | none =>
      simp only [fetchLoop, hf]
      obtain ⟨t, ht⟩ := ih acc seen
      exact ⟨t, by simp [ht]⟩
    | some entries =>
      simp only [fetchLoop, hf]
      by_cases hcap : num ≤ (entryLoop num entries acc seen).1.length
      · rw [if_pos hcap]
        exact ⟨rest, rfl⟩
      · rw [if_neg hcap]
        obtain ⟨t, ht⟩ := ih (entryLoop num entries acc seen).1 (entryLoop num entries acc seen).2
        exact ⟨t, by simp [ht]⟩

/-- If the loop comes back with fewer articles than the cap, it never broke
early, so every given term was iterated (and hence fetched). -/
theorem fetchLoop_fetched_all (num : Nat) (feeds : String → Option (List Entry))
    (terms : List String) (acc : List Entry) (seen : List String)
    (hlen : (fetchLoop num feeds terms acc seen).articles.length < num) :
    (fetchLoop num feeds terms acc seen).fetched = terms := by
  induction terms generalizing acc seen with
  | nil => rfl
  | cons term rest ih =>
    cases hf : feeds (searchURL term) with
    | none =>
      simp only [fetchLoop, hf] at hlen ⊢
      exact congrArg (term :: ·) (ih acc seen hlen)
    | some entries =>
      by_cases hcap : num ≤ (entryLoop num entries acc seen).1.length
      · simp only [fetchLoop, hf, if_pos hcap] at hlen
        exact absurd hlen (Nat.not_lt.mpr hcap)
      · simp only [fetchLoop, hf, if_neg hcap] at hlen ⊢
        exact congrArg (term :: ·) (ih _ _ hlen)

/-! ### Characterisation of `process_articles` -/

/-- The records come out one per article, elementwise by `processOne`. -/
theorem process_records_map (finbert : String → String) (articles : List Entry) :
    (process_articles finbert articles).1
      = articles.map (fun a => (processOne finbert a).1) := by
  induction articles with
  | nil => rfl
  | cons a as ih => simp [process_articles, ih]

/-- The classifier inputs come out one per article, elementwise by
`processOne`. -/
theorem process_calls_map (finbert : String → String) (articles : List Entry) :
    (process_articles finbert articles).2
      = articles.map (fun a => (processOne finbert a).2) := by
  induction articles with
  | nil => rfl
  | cons a as ih => simp [process_articles, ih]

/-- `process_articles` keeps the article titles, in order. -/
theorem process_titles (finbert : String → String) (articles : List Entry) :
    (process_articles finbert articles).1.map Record.Title
      = articles.map Entry.title := by
  induction articles with
  | nil => rfl
  | cons a as ih => simp [process_articles, processOne, ih]

/-- `process_articles` keeps the article links, in order. -/
theorem process_links (finbert : String → String) (articles : List Entry) :
    (process_articles finbert articles).1.map Record.Link
      = articles.map Entry.link := by
  induction articles with
  | nil => rfl
  | cons a as ih => simp [process_articles, processOne, ih]

/-- `process_articles` emits exactly one record per article. -/
theorem process_length (finbert : String → String) (articles : List Entry) :
    (process_articles finbert articles).1.length = articles.length := by
  rw [process_records_map, List.length_map]

/-! ### Characterisation of `fetch_news` -/

/-- The titles of a `fetch_news` result are pairwise distinct. -/
theorem fetch_news_titles_nodup (feeds : String → Option (List Entry))
    (stored : List Record) (num : Nat) :
    ((fetch_news feeds stored num).map Entry.title).Nodup := by
  have h := (fetchLoop_nodup num feeds SEARCH_TERMS [] (stored.map Record.Title)
    (by simp) (by simp)).1
  simp only [fetch_news]
  rw [List.map_take]
  exact List.Nodup.sublist (List.take_sublist _ _) h

/-- No title of a `fetch_news` result occurs among the stored titles. -/
theorem fetch_news_titles_fresh (feeds : String → Option (List Entry))
    (stored : List Record) (num : Nat) :
    ∀ e ∈ fetch_news feeds stored num, e.title ∉ stored.map Record.Title := by
  intro e he hmem
  have he' : e ∈ (fetchLoop num feeds SEARCH_TERMS [] (stored.map Record.Title)).articles :=
    List.mem_of_mem_take he
  rcases fetchLoop_new num feeds SEARCH_TERMS [] (stored.map Record.Title) e he' with h | h
  · exact List.not_mem_nil e h
  · exact h hmem

/-! ### Claims -/

/-- C1: every call to `fetch_news` returns entries whose titles are
pairwise distinct, none of which equals the `Title` of an article already
stored in `st.session_state.all_articles` at the start of the call. -/
theorem fetch_news_dedup (feeds : String → Option (List Entry))
    (stored : List Record) (num_articles : Nat) :
    ((fetch_news feeds stored num_articles).map Entry.title).Nodup ∧
      ∀ e ∈ fetch_news feeds stored num_articles,
        e.title ∉ stored.map Record.Title :=
  ⟨fetch_news_titles_nodup feeds stored num_articles,
   fetch_news_titles_fresh feeds stored num_articles⟩

/-- Witness for C1 at a concrete feed environment and empty session. -/
theorem fetch_news_dedup_witness :
    ((fetch_news manyFeeds [] 10).map Entry.title).Nodup ∧
      (⟨"t0", "l0", none⟩ : Entry).title ∉ ([] : List Record).map Record.Title :=
  ⟨(fetch_news_dedup manyFeeds [] 10).1,
   (fetch_news_dedup manyFeeds [] 10).2 ⟨"t0", "l0", none⟩ (by decide)⟩

/-- C2: for every `num_articles`, `fetch_news` returns at most
`num_articles` entries, regardless of how many entries the feeds yield. -/
theorem fetch_news_result_cap (feeds : String → Option (List Entry))
    (stored : List Record) (num_articles : Nat) :
    (fetch_news feeds stored num_articles).length ≤ num_articles := by
  simp only [fetch_news]
  rw [List.length_take]
  exact Nat.min_le_left _ _

/-- C3 counterexample: when the first term's feed already yields enough
entries, `fetch_news` breaks out of the term loop early, so the configured
term `"BSE"` is never queried — refuting "exactly one HTTP GET for each of
the configured search terms". -/
theorem fetch_news_skips_terms_cex :
    "BSE" ∈ SEARCH_TERMS ∧ "BSE" ∉ fetchNewsTerms manyFeeds [] 10 := by
  constructor
  · decide
  · decide

/-- C3 amended: each run of `fetch_news` issues one GET per term for an
initial segment of `SEARCH_TERMS`, in order; it stops early once the
article cap is reached, and when the cap is never reached (fewer articles
collected than requested) every configured term is queried. -/
theorem fetch_news_terms_front (feeds : String → Option (List Entry))
    (stored : List Record) (num_articles : Nat) :
    fetchNewsTerms feeds stored num_articles <+: SEARCH_TERMS ∧
      ((fetchLoop num_articles feeds SEARCH_TERMS []
          (stored.map Record.Title)).articles.length < num_articles →
        fetchNewsTerms feeds stored num_articles = SEARCH_TERMS) :=
  ⟨fetchLoop_fetched_front num_articles feeds SEARCH_TERMS [] (stored.map Record.Title),
   fun h => fetchLoop_fetched_all num_articles feeds SEARCH_TERMS []
     (stored.map Record.Title) h⟩

/-- Witness for C3's amended claim: with uniformly empty feeds the cap is
never reached and all seventeen terms are queried. -/
theorem fetch_news_terms_front_witness :
    fetchNewsTerms emptyFeeds [] 10 = SEARCH_TERMS :=
  (fetch_news_terms_front emptyFeeds [] 10).2 (by decide)

/-- C4: `process_articles` calls the classifier exactly once per article,
in order, on the article's title truncated to at most 512 characters. -/
theorem process_articles_classifier_calls (finbert : String → String)
    (articles : List Entry) :
    (process_articles finbert articles).2
        = articles.map (fun art => pyTruncate art.title 512) ∧
      ∀ s ∈ (process_articles finbert articles).2, s.length ≤ 512 := by
  have heq : (process_articles finbert articles).2
      = articles.map (fun art => pyTruncate art.title 512) := by
    rw [process_calls_map]
    rfl
  refine ⟨heq, ?_⟩
  rw [heq]
  intro s hs
  obtain ⟨a, _, rfl⟩ := List.mem_map.mp hs
  simp only [pyTruncate, String.length, List.length_take]
  exact Nat.min_le_left _ _

/-- Witness for C4 on a one-article list. -/
theorem process_articles_classifier_calls_witness :
    (process_articles constFinbert [entryA]).2
        = [entryA].map (fun art => pyTruncate art.title 512) ∧
      (pyTruncate entryA.title 512).length ≤ 512 :=
  ⟨(process_articles_classifier_calls constFinbert [entryA]).1,
   (process_articles_classifier_calls constFinbert [entryA]).2 _ (by decide)⟩

/-- C5: `process_articles` returns exactly one record per input article,
in the same order; each record is a `Record` (having exactly the four
columns `Title`, `Source`, `Sentiment`, `Link`), and the `Title` and
`Link` columns equal the article's `title` and `link`. -/
theorem process_articles_records (finbert : String → String)
    (articles : List Entry) :
    (process_articles finbert articles).1.length = articles.length ∧
      (process_articles finbert articles).1.map Record.Title
          = articles.map Entry.title ∧
      (process_articles finbert articles).1.map Record.Link
          = articles.map Entry.link :=
  ⟨process_length finbert articles, process_titles finbert articles,
   process_links finbert articles⟩

/-- C6 counterexample: with one stored article the display block is
rendered, yet no widget it emits is a sentiment-filter control and none is
a download (CSV-export) button — refuting "the dashboard offers an
optional sentiment filter over the list and a CSV export of the article
table". -/
theorem render_no_filter_no_export_cex :
    df0 ≠ [] ∧ (renderContent df0).any isFilterWidget = false ∧
      (renderContent df0).any isDownloadWidget = false := by
  refine ⟨by decide, by decide, by decide⟩

/-- C6 amended: whenever articles are displayed the dashboard renders one
row per stored article (title/link, source, sentiment badge) alongside the
metrics and the bar chart, but it offers no sentiment filter and no CSV
export. -/
theorem render_rows_no_filter_no_export (df : List Record) :
    (renderContent df).any isFilterWidget = false ∧
      (renderContent df).any isDownloadWidget = false ∧
      ∀ r ∈ df, Widget.articleRow r.Title r.Link r.Source r.Sentiment ∈ renderContent df := by
  refine ⟨?_, ?_, ?_⟩
  · by_cases h : df.isEmpty <;> simp [renderContent, h, isFilterWidget]
  · by_cases h : df.isEmpty <;> simp [renderContent, h, isDownloadWidget]
  · intro r hr
    by_cases h : df.isEmpty
    · rw [List.isEmpty_iff] at h
      subst h
      exact absurd hr (List.not_mem_nil r)
    · simp only [renderContent, h, Bool.false_eq_true, if_false]
      exact List.mem_append_right _ (List.mem_map.mpr ⟨r, hr, rfl⟩)

/-- Witness for C6's amended claim at the one-row table. -/
theorem render_rows_no_filter_no_export_witness :
    Widget.articleRow recA.Title recA.Link recA.Source recA.Sentiment ∈ renderContent df0 :=
  (render_rows_no_filter_no_export df0).2.2 recA (by decide)

/-- C7: if fetching/parsing the feed of some term raises an exception, the
loop in `fetch_news` skips that term with a single attempt (no retry),
keeps every entry already collected, and continues with the remaining
terms. -/
theorem fetch_news_exception_skip (num : Nat) (feeds : String → Option (List Entry))
    (term : String) (rest : List String) (acc : List Entry) (seen : List String)
    (hexc : feeds (searchURL term) = none) :
    (fetchLoop num feeds (term :: rest) acc seen).articles
        = (fetchLoop num feeds rest acc seen).articles ∧
      (fetchLoop num feeds (term :: rest) acc seen).fetched
        = term :: (fetchLoop num feeds rest acc seen).fetched ∧
      acc <+: (fetchLoop num feeds (term :: rest) acc seen).articles := by
  refine ⟨?_, ?_, ?_⟩ <;> simp only [fetchLoop, hexc]
  exact fetchLoop_acc_front num feeds rest acc seen

/-- Witness for C7: the `"BSE"` query raises, contributes nothing, and the
loop continues with the remaining term. -/
theorem fetch_news_exception_skip_witness :
    (fetchLoop 10 failFeeds ["BSE", "Sensex"] [] []).articles
        = (fetchLoop 10 failFeeds ["Sensex"] [] []).articles ∧
      (fetchLoop 10 failFeeds ["BSE", "Sensex"] [] []).fetched
        = "BSE" :: (fetchLoop 10 failFeeds ["Sensex"] [] []).fetched ∧
      ([] : List Entry) <+: (fetchLoop 10 failFeeds ["BSE", "Sensex"] [] []).articles :=
  fetch_news_exception_skip 10 failFeeds "BSE" ["Sensex"] [] [] (by simp [failFeeds])

/-- C8: starting from a stored table with pairwise-distinct titles, both
writes to `st.session_state.all_articles` — a refresh and the initial load
— leave the stored titles pairwise distinct. -/
theorem stored_titles_nodup (finbert : String → String)
    (feeds : String → Option (List Entry)) (stored : List Record)
    (hnd : (stored.map Record.Title).Nodup) :
    ((refreshState finbert feeds stored).map Record.Title).Nodup ∧
      ((initialLoad finbert feeds stored).map Record.Title).Nodup := by
  constructor
  · unfold refreshState
    by_cases h : (fetch_news feeds stored ARTICLES_PER_REFRESH).isEmpty
    · rw [if_pos h]
      exact hnd
    · rw [if_neg h, List.map_append, List.nodup_append]
      refine ⟨?_, hnd, ?_⟩
      · rw [process_titles]
        exact fetch_news_titles_nodup feeds stored ARTICLES_PER_REFRESH
      · intro t ht ht'
        rw [process_titles] at ht
        obtain ⟨e, he, rfl⟩ := List.mem_map.mp ht
        exact fetch_news_titles_fresh feeds stored ARTICLES_PER_REFRESH e he ht'
  · unfold initialLoad
    by_cases hs : stored.isEmpty
    · rw [if_pos hs]
      by_cases h2 : (fetch_news feeds stored ARTICLES_PER_REFRESH).isEmpty
      · rw [if_pos h2]
        exact hnd
      · rw [if_neg h2, process_titles]
        exact fetch_news_titles_nodup feeds stored ARTICLES_PER_REFRESH
    · rw [if_neg hs]
      exact hnd

/-- Witness for C8 from the empty session. -/
theorem stored_titles_nodup_witness :
    ((refreshState constFinbert manyFeeds []).map Record.Title).Nodup ∧
      ((initialLoad constFinbert manyFeeds []).map Record.Title).Nodup :=
  stored_titles_nodup constFinbert manyFeeds [] (by decide)

/-- C9: a refresh only prepends new records: the previously stored
articles survive unchanged, in their relative order, as the tail of the
new stored list. -/
theorem refresh_frame (finbert : String → String)
    (feeds : String → Option (List Entry)) (stored : List Record) :
    ∃ newRecs, refreshState finbert feeds stored = newRecs ++ stored := by
  unfold refreshState
  by_cases h : (fetch_news feeds stored ARTICLES_PER_REFRESH).isEmpty
  · exact ⟨[], by rw [if_pos h, List.nil_append]⟩
  · exact ⟨_, by rw [if_neg h]⟩

/-- C10: for every article without a `source` attribute, or whose `source`
mapping has no `title` key, `process_articles` sets the record's `Source`
column to `"Unknown"`. -/
theorem process_source_unknown (finbert : String → String) (articles : List Entry)
    (i : Nat) (h : i < articles.length)
    (h2 : i < (process_articles finbert articles).1.length)
    (hsrc : (articles.get ⟨i, h⟩).source = none ∨
      ∃ m, (articles.get ⟨i, h⟩).source = some m ∧ m.lookup "title" = none) :
    ((process_articles finbert articles).1.get ⟨i, h2⟩).Source = "Unknown" := by
  have hg : (process_articles finbert articles).1.get ⟨i, h2⟩
      = (processOne finbert (articles.get ⟨i, h⟩)).1 := by
    simp only [List.get_eq_getElem, process_records_map, List.getElem_map]
  rw [hg]
  rcases hsrc with hs | ⟨m, hm, hl⟩
  · simp only [List.get_eq_getElem] at hs
    simp [processOne, hs]
  · simp only [List.get_eq_getElem] at hm
    simp [processOne, hm, hl]

/-- Witness for C10 on an entry without a `source` attribute. -/
theorem process_source_unknown_witness :
    ((process_articles constFinbert [entryNoSource]).1.get ⟨0, by decide⟩).Source
      = "Unknown" :=
  process_source_unknown constFinbert [entryNoSource] 0 (by decide) (by decide)
    (Or.inl rfl)
